import Mathlib

/-!
Verification development for the lockfile-generation scripts
(resolve_urls.py, lockfile_from_urls.py, enhance_with_size_and_checksum.py).

The Python sources are shallowly embedded below: pure functions become Lean
functions, the dnf subprocess outcome and the on-disk artifact store become
explicit inputs, Python dicts become insertion-ordered association lists, and
exceptions become Except results.
-/

/-- Result of urllib.parse.urlsplit: the five components
(scheme, netloc, path, query, fragment). -/
structure URLSplit where
  scheme : String
  netloc : String
  path : String
  query : String
  fragment : String
  deriving DecidableEq, Repr

/-- Characters allowed in a URL scheme (CPython urllib.parse scheme_chars:
ASCII letters, digits, plus, minus, dot). -/
def schemeChar (c : Char) : Bool :=
  c.isAlpha || c.isDigit || c == '+' || c == '-' || c == '.'

/-- Scheme parsing step of CPython urllib.parse.urlsplit: if the text up to the
first colon is a nonempty run of scheme characters starting with a letter, it is
the scheme (lowercased) and the remainder follows the colon; otherwise the
scheme is empty and nothing is consumed. -/
def splitScheme (cs : List Char) : List Char × List Char :=
  match cs.findIdx? (fun c => c == ':') with
  | none => ([], cs)
  | some i =>
    if 0 < i
        && (match cs.head? with
            | some c => c.isAlpha
            | none => false)
        && (cs.take i).all schemeChar then
      ((cs.take i).map Char.toLower, cs.drop (i + 1))
    else
      ([], cs)

/-- Netloc parsing step of CPython urllib.parse.urlsplit (_splitnetloc): when
the remainder begins with two slashes, the netloc extends to the next slash,
question mark or hash character (or the end of the string). -/
def splitNetloc (cs : List Char) : List Char × List Char :=
  match cs with
  | '/' :: '/' :: rest =>
    let i := rest.findIdx (fun c => c == '/' || c == '?' || c == '#')
    (rest.take i, rest.drop i)
  | _ => ([], cs)

/-- Split at the first occurrence of a separator character, dropping the
separator; none when the separator does not occur. -/
def splitOnceChar (cs : List Char) (sep : Char) : Option (List Char × List Char) :=
  match cs.findIdx? (fun c => c == sep) with
  | none => none
  | some i => some (cs.take i, cs.drop (i + 1))

/-- Modelled from CPython urllib.parse.urlsplit for URLs that contain no ASCII
control characters, spaces, tabs or newlines (CPython strips or removes those
before parsing) and no bracketed-host validity errors: parse the scheme, then
the netloc after a leading double slash, then split off the fragment at the
first hash character and the query at the first question mark. -/
def urlsplit (url : String) : URLSplit :=
  let (scheme, rest1) := splitScheme url.data
  let (netloc, rest2) := splitNetloc rest1
  let (rest3, fragment) :=
    match splitOnceChar rest2 '#' with
    | some (a, b) => (a, b)
    | none => (rest2, [])
  let (path, query) :=
    match splitOnceChar rest3 '?' with
    | some (a, b) => (a, b)
    | none => (rest3, [])
  ⟨String.mk scheme, String.mk netloc, String.mk path, String.mk query, String.mk fragment⟩

/-- A parsed pathlib.PurePosixPath: the root marker (0 = relative path, 1 =
rooted at a single slash, 2 = rooted at a double slash, which POSIX keeps
distinct) and the parsed segments. -/
structure PosixPath where
  root : Nat
  segs : List String
  deriving DecidableEq, Repr

/-- Split a character list at every occurrence of a separator character, like
Python str.split with a single-character separator: splitting the empty string
yields one empty piece. -/
def splitChar (sep : Char) : List Char → List (List Char)
  | [] => [[]]
  | c :: rest =>
    if c == sep then [] :: splitChar sep rest
    else
      match splitChar sep rest with
      | [] => [[c]]
      | s :: ss => (c :: s) :: ss

/-- Python str.endswith, i.e. suffix containment on the character list. -/
def strEndsWith (s suffixStr : String) : Bool :=
  suffixStr.data.isSuffixOf s.data

/-- Python string comparison: strict lexicographic order on the code points
of the characters. -/
def strLTb : List Char → List Char → Bool
  | [], [] => false
  | [], _ :: _ => true
  | _ :: _, [] => false
  | c :: cs, d :: ds =>
    if c < d then true
    else if d < c then false
    else strLTb cs ds

/-- The root marker of pathlib.PurePosixPath parsing: 2 when the string starts
with exactly two slashes (POSIX keeps a double-slash root distinct), 1 when it
starts with one slash or with three or more, 0 for a relative path. -/
def posixRoot (cs : List Char) : Nat :=
  match cs with
  | '/' :: '/' :: '/' :: _ => 1
  | '/' :: '/' :: _ => 2
  | '/' :: _ => 1
  | _ => 0

/-- Modelled from pathlib.PurePosixPath parsing: the root as in posixRoot, and
the segments are the parts between slashes with empty segments and single dots
removed (double dots are kept). -/
def parsePosixPath (s : String) : PosixPath :=
  ⟨posixRoot s.data,
   ((splitChar '/' s.data).filter (fun seg => !(seg.isEmpty || seg == ['.']))).map String.mk⟩

/-- pathlib.PurePath.is_relative_to: p is relative to q iff q's parts are a
prefix of p's parts, i.e. the roots agree and q's segments are a prefix of p's
segments. -/
def PosixPath.isRelativeTo (p q : PosixPath) : Bool :=
  p.root == q.root && q.segs.isPrefixOf p.segs

/-- pathlib.PurePath.name: the final path segment, or the empty string when
there is none. -/
def PosixPath.name (p : PosixPath) : String :=
  p.segs.getLast?.getD ""

/-- Repository identifiers are plain strings (resolve_urls.py RepoID). -/
abbrev RepoID := String

/-- The matching condition of the loop in resolve_urls.py map_url_to_repoid
(lines 53-57): equal scheme, equal netloc, and the package path is relative to
the base path in the pathlib sense. -/
def matchesBase (packageURL baseurl : URLSplit) : Bool :=
  packageURL.scheme == baseurl.scheme
    && packageURL.netloc == baseurl.netloc
    && (parsePosixPath packageURL.path).isRelativeTo (parsePosixPath baseurl.path)

/-- resolve_urls.py map_url_to_repoid: scan the baseurl-to-repoid mapping in
dict insertion order (modelled as a list) and return the repoid of the first
matching base URL; raise ValueError when none matches (the message, which in
Python interpolates the URL, is abbreviated here). -/
def map_url_to_repoid (packageURL : URLSplit)
    (baseurlsToRepoids : List (URLSplit × RepoID)) : Except String RepoID :=
  match baseurlsToRepoids with
  | [] => .error "no matching baseurl"
  | (baseurl, repoid) :: rest =>
    if matchesBase packageURL baseurl then .ok repoid
    else map_url_to_repoid packageURL rest

/-- Characters of a string.Template identifier: ASCII letters, digits and the
underscore. -/
def identChar (c : Char) : Bool :=
  c.isAlpha || c.isDigit || c == '_'

/-- First character of a string.Template identifier: an ASCII letter or the
underscore. -/
def identStart (c : Char) : Bool :=
  c.isAlpha || c == '_'

/-- The opening curly brace character. -/
def curlyOpen : Char := Char.ofNat 123

/-- The closing curly brace character. -/
def curlyClose : Char := Char.ofNat 125

/-- Modelled from string.Template.safe_substitute applied with the single
mapping entry basearch -> arch (resolve_urls.py line 43): a doubled dollar
collapses to one dollar; a dollar followed by an identifier, either bare or
enclosed in curly braces, is replaced by arch when the identifier is basearch
and otherwise left as written; any other dollar is left in place (safe
substitution never fails). -/
def safe_substitute (arch : String) : List Char → List Char
  | [] => []
  | '$' :: rest =>
    match rest with
    | [] => ['$']
    | c :: rest2 =>
      if c == '$' then '$' :: safe_substitute arch rest2
      else if c == curlyOpen then
        let ident := rest2.takeWhile identChar
        let after := rest2.dropWhile identChar
        if identStart (ident.headD '/') && after.headD '/' == curlyClose then
          if ident = "basearch".data then
            arch.data ++ safe_substitute arch after.tail
          else
            '$' :: c :: (ident ++ curlyClose :: safe_substitute arch after.tail)
        else
          '$' :: safe_substitute arch (c :: rest2)
      else if identStart c then
        let ident := (c :: rest2).takeWhile identChar
        let after := (c :: rest2).dropWhile identChar
        if ident = "basearch".data then
          arch.data ++ safe_substitute arch after
        else
          '$' :: (ident ++ safe_substitute arch after)
      else
        '$' :: safe_substitute arch (c :: rest2)
  | c :: rest => c :: safe_substitute arch rest
termination_by cs => cs.length
decreasing_by
all_goals simp only [List.length_cons]
all_goals
  first
  | omega
  | (refine Nat.lt_of_le_of_lt
      (List.Sublist.length_le
        (List.Sublist.trans (List.tail_sublist _) (List.dropWhile_sublist _))) ?_
     omega)
  | (refine Nat.lt_of_le_of_lt (List.Sublist.length_le (List.dropWhile_sublist _)) ?_
     simp only [List.length_cons]
     omega)

/-- Python dict lookup on an insertion-ordered association list. -/
def alistGet? {α β : Type} [DecidableEq α] : List (α × β) → α → Option β
  | [], _ => none
  | (k, v) :: rest, key => if k = key then some v else alistGet? rest key

/-- Python dict assignment on an insertion-ordered association list: an
existing key keeps its position and gets the new value, a new key is appended
at the end. -/
def alistSet {α β : Type} [DecidableEq α] : List (α × β) → α → β → List (α × β)
  | [], key, val => [(key, val)]
  | (k, v) :: rest, key, val =>
    if k = key then (k, val) :: rest else (k, v) :: alistSet rest key val

/-- A parsed repository configuration (resolve_urls.py RepoSet): repoid to
attribute mapping, in dict insertion order. -/
structure RepoSet where
  mapping : List (RepoID × List (String × String))
  deriving DecidableEq, Repr

/-- resolve_urls.py RepoSet.parse_dir, modelled from the point where each .repo
file has been parsed by configparser into its non-DEFAULT sections (section
name and attribute mapping, with DEFAULT-section inheritance already applied as
configparser presents it): the per-file section lists are merged with
dict.update, so a repoid defined in several files keeps the definition
processed last. No attribute validation happens here and the function cannot
fail. -/
def parse_dir (files : List (List (RepoID × List (String × String)))) : RepoSet :=
  ⟨files.foldl (fun m file => file.foldl (fun m p => alistSet m p.1 p.2) m) []⟩

/-- Inner loop of RepoSet.map_expanded_baseurls for one architecture: for each
repository in insertion order, read its baseurl attribute (a missing attribute
raises KeyError, modelled as an error result), substitute the architecture for
the basearch placeholder, urlsplit the result and assign it into the mapping. -/
def expandRepos (arch : String) : List (RepoID × List (String × String)) →
    List (URLSplit × RepoID) → Except String (List (URLSplit × RepoID))
  | [], m => .ok m
  | (repoid, attrs) :: rest, m =>
    match alistGet? attrs "baseurl" with
    | none => .error "KeyError: baseurl"
    | some t =>
      expandRepos arch rest
        (alistSet m (urlsplit (String.mk (safe_substitute arch t.data))) repoid)

/-- Outer loop of RepoSet.map_expanded_baseurls over the architecture list. -/
def expandArches (rs : RepoSet) : List String → List (URLSplit × RepoID) →
    Except String (List (URLSplit × RepoID))
  | [], m => .ok m
  | arch :: rest, m =>
    match expandRepos arch rs.mapping m with
    | .error e => .error e
    | .ok m2 => expandArches rs rest m2

/-- resolve_urls.py RepoSet.map_expanded_baseurls: for every architecture and
every repository, expand the baseurl template and register the split URL under
the repoid, starting from an empty dict. -/
def map_expanded_baseurls (rs : RepoSet) (arches : List String) :
    Except String (List (URLSplit × RepoID)) :=
  expandArches rs arches []

/-- Outcome of the dnf subprocess invoked by resolve_urls.py resolve_urls:
exit status and captured text streams. -/
structure ProcResult where
  returncode : Int
  stdout : String
  stderr : String
  deriving DecidableEq, Repr

/-- A message printed to the diagnostic stream by resolve_urls: the SRPM
warning for a repoid (text abbreviated to a tag) or the forwarded stderr of
the tool. -/
inductive StderrMsg
  | srpmWarning (repoid : String)
  | toolStderr (text : String)
  deriving DecidableEq, Repr

/-- What resolve_urls does after the subprocess returns: the diagnostic
messages it prints, and either the propagated CalledProcessError or the list
of resolved URLs. -/
structure ResolveResult where
  stderr : List StderrMsg
  result : Except String (List String)
  deriving Repr

/-- Python str.splitlines for text whose only line-break character is the
newline (the dnf output consumed by resolve_urls). -/
def splitlines (s : String) : List String :=
  let pieces := splitChar '\n' s.data
  (if pieces.getLast? = some [] then pieces.dropLast else pieces).map String.mk

/-- resolve_urls.py resolve_urls, lines 80-92, with the dnf subprocess outcome
given as an input: on a non-zero exit status it prints the SRPM warning when
source is requested, always forwards the tool stderr, and raises
CalledProcessError (check_returncode) exactly when source was not requested;
otherwise it keeps the stdout lines that parse with a non-empty URL scheme. -/
def resolve_urls_outcome (source : Bool) (repoid : String) (proc : ProcResult) :
    ResolveResult :=
  let msgs : List StderrMsg :=
    if proc.returncode ≠ 0 then
      (if source then [StderrMsg.srpmWarning repoid] else []) ++ [StderrMsg.toolStderr proc.stderr]
    else []
  if proc.returncode ≠ 0 ∧ source = false then
    { stderr := msgs, result := .error "CalledProcessError" }
  else
    { stderr := msgs,
      result := .ok ((splitlines proc.stdout).filter (fun u => !((urlsplit u).scheme == ""))) }

/-- lockfile_from_urls.py ResolvedRPM: one (arch, repoid, url) triple; the
field order gives the NamedTuple comparison order. -/
structure ResolvedRPM where
  arch : String
  repoid : String
  url : String
  deriving DecidableEq, Repr

/-- lockfile_from_urls.py ResolvedRPM.filename: the final segment of the URL
path, via urlsplit and pathlib name. -/
def ResolvedRPM.filename (r : ResolvedRPM) : String :=
  (parsePosixPath (urlsplit r.url).path).name

/-- The source-artifact test of gen_lockfile: the derived filename ends with
.src.rpm. -/
def ResolvedRPM.isSource (r : ResolvedRPM) : Bool :=
  strEndsWith r.filename ".src.rpm"

/-- The Python tuple comparison on ResolvedRPM used by sorted: lexicographic
on (arch, repoid, url) with the code-point order on strings. -/
def rpmLE (a b : ResolvedRPM) : Bool :=
  strLTb a.arch.data b.arch.data ||
    (a.arch == b.arch &&
      (strLTb a.repoid.data b.repoid.data ||
        (a.repoid == b.repoid &&
          (strLTb a.url.data b.url.data || a.url == b.url))))

/-- The tuple comparison as a relation. -/
def rpmle (a b : ResolvedRPM) : Prop :=
  rpmLE a b = true

instance : DecidableRel rpmle :=
  fun a b => inferInstanceAs (Decidable (rpmLE a b = true))

/-- One artifact entry of the emitted lockfile: url and repoid. -/
structure LockItem where
  url : String
  repoid : String
  deriving DecidableEq, Repr

/-- The per-architecture entry: the packages and source lists. -/
structure ArchData where
  packages : List LockItem
  source : List LockItem
  deriving DecidableEq, Repr

/-- The lockfile document of lockfile_from_urls.py gen_lockfile: version,
vendor, and the per-architecture entries in dict insertion order. -/
structure Lockfile where
  lockfileVersion : Nat
  lockfileVendor : String
  arches : List (String × ArchData)
  deriving DecidableEq, Repr

/-- The defaultdict default of gen_lockfile: empty packages and source lists. -/
def emptyArchData : ArchData := ⟨[], []⟩

/-- Update the per-architecture dict at one key, creating the defaultdict
default first when the key is absent (appended at the end, in dict insertion
order). -/
def updateArch : List (String × ArchData) → String → (ArchData → ArchData) →
    List (String × ArchData)
  | [], a, f => [(a, f emptyArchData)]
  | (k, v) :: rest, a, f =>
    if k = a then (k, f v) :: rest else (k, v) :: updateArch rest a f

/-- The loop body of gen_lockfile: append the item derived from one rpm to the
source list when its filename ends with .src.rpm, and to the packages list
otherwise. -/
def addRPM (m : List (String × ArchData)) (r : ResolvedRPM) : List (String × ArchData) :=
  if r.isSource then
    updateArch m r.arch (fun d => { d with source := d.source ++ [⟨r.url, r.repoid⟩] })
  else
    updateArch m r.arch (fun d => { d with packages := d.packages ++ [⟨r.url, r.repoid⟩] })

/-- lockfile_from_urls.py gen_lockfile: sort the rpms by their tuple order
(Python sorted is a stable comparison sort; since the tuple order is total,
transitive and antisymmetric, the sorted rearrangement is unique, so any
sorting algorithm models it), partition them into per-architecture packages
and source lists, and emit the versioned document. -/
def gen_lockfile (rpms : List ResolvedRPM) : Lockfile :=
  { lockfileVersion := 1
    lockfileVendor := "redhat"
    arches := (List.insertionSort rpmle rpms).foldl addRPM [] }

/-- One artifact entry as read by enhance_with_size_and_checksum.py: url,
repoid, and the possibly absent size and checksum fields. -/
structure RpmEntry where
  url : String
  repoid : String
  size : Option Nat
  checksum : Option String
  deriving DecidableEq, Repr

/-- One per-architecture entry of the lockfile as read by the enrichment
script. -/
structure EnrichArch where
  arch : String
  packages : List RpmEntry
  source : List RpmEntry
  deriving DecidableEq, Repr

/-- The lockfile document as read by the enrichment script (the fields the
script never touches are omitted; json round-tripping preserves them). -/
structure EnrichDoc where
  arches : List EnrichArch
  deriving DecidableEq, Repr

/-- Python truthiness of rpm.get of the size field: false for an absent field
and for a present zero. -/
def truthySize : Option Nat → Bool
  | none => false
  | some n => !(n == 0)

/-- Python truthiness of rpm.get of the checksum field: false for an absent
field and for a present empty string. -/
def truthyChecksum : Option String → Bool
  | none => false
  | some s => !(s == "")

/-- The on-disk artifact store consulted by the enrichment script: the stat
size and the sha256sum digest of the file at deps/rpm/arch/repoid/filename.
Files are taken to exist (the enrichment claims considered here do not involve
a missing artifact). -/
structure ArtifactStore where
  sizeOf : String → String → String → Nat
  sha256Of : String → String → String → String

/-- The filename the enrichment script derives from an entry's url (line 33):
the final segment of the urlsplit path. -/
def entryFilename (rpm : RpmEntry) : String :=
  (parsePosixPath (urlsplit rpm.url).path).name

/-- The size step of the enrichment loop (lines 36-37): fill the size from the
artifact store unless the present value is truthy. -/
def enrichSize (fs : ArtifactStore) (arch : String) (rpm : RpmEntry) : RpmEntry :=
  if truthySize rpm.size then rpm
  else { rpm with size := some (fs.sizeOf arch rpm.repoid (entryFilename rpm)) }

/-- The checksum step of the enrichment loop (lines 38-39): fill the checksum
from the artifact store unless the present value is truthy. -/
def enrichChecksum (fs : ArtifactStore) (arch : String) (rpm : RpmEntry) : RpmEntry :=
  if truthyChecksum rpm.checksum then rpm
  else { rpm with checksum := some (fs.sha256Of arch rpm.repoid (entryFilename rpm)) }

/-- The enrichment of one artifact entry: the size step then the checksum
step. -/
def enrichRpm (fs : ArtifactStore) (arch : String) (rpm : RpmEntry) : RpmEntry :=
  enrichChecksum fs arch (enrichSize fs arch rpm)

/-- The enrichment of one per-architecture entry: every entry of the packages
and source lists is enriched in place. -/
def enrichArchEntry (fs : ArtifactStore) (a : EnrichArch) : EnrichArch :=
  { a with
    packages := a.packages.map (enrichRpm fs a.arch)
    source := a.source.map (enrichRpm fs a.arch) }

/-- enhance_with_size_and_checksum.py main, between reading and rewriting the
lockfile: every artifact entry across every architecture and both partitions
gets its absent (or falsy) size and checksum filled from the artifact store. -/
def enhance_with_size_and_checksum (fs : ArtifactStore) (doc : EnrichDoc) : EnrichDoc :=
  ⟨doc.arches.map (enrichArchEntry fs)⟩

example : urlsplit "https://example.com/repo/x86_64/bash-5.1.rpm" =
    ⟨"https", "example.com", "/repo/x86_64/bash-5.1.rpm", "", ""⟩ := by decide

example : urlsplit "https://host" = ⟨"https", "host", "", "", ""⟩ := by decide

example : (parsePosixPath "/repo/extra/pkg-1.rpm").isRelativeTo (parsePosixPath "/repo/") = true := by
  decide

example : (parsePosixPath "/repoextra").isRelativeTo (parsePosixPath "/repo") = false := by
  decide

example : (parsePosixPath "/a").isRelativeTo (parsePosixPath "") = false := by decide

/-! Theorems about map_url_to_repoid (claims C1, C2, C8, C10). -/

/-- Scanning skips over a block of entries none of which matches. -/
theorem map_url_skip (u : URLSplit) (m₁ m₂ : List (URLSplit × RepoID))
    (h : ∀ p ∈ m₁, matchesBase u p.1 = false) :
    map_url_to_repoid u (m₁ ++ m₂) = map_url_to_repoid u m₂ := by
  induction m₁ with
  | nil => rfl
  | cons p rest ih =>
    have hp : matchesBase u p.1 = false := h p (List.mem_cons_self p rest)
    have hrest : ∀ q ∈ rest, matchesBase u q.1 = false :=
      fun q hq => h q (List.mem_cons_of_mem p hq)
    cases p with
    | mk b r =>
      simp only [List.cons_append, map_url_to_repoid]
      rw [hp]
      simp only [if_neg (by simp : ¬(false = true))]
      exact ih hrest

/-- A differing netloc defeats the match condition. -/
theorem matchesBase_false_of_netloc (u b : URLSplit) (h : u.netloc ≠ b.netloc) :
    matchesBase u b = false := by
  simp only [matchesBase, Bool.and_eq_false_iff, beq_eq_false_iff_ne, ne_eq]
  left
  right
  exact h

/-- C8 (confirmed): map_url_to_repoid fails with the no-matching-baseurl
error for every URL that matches no configured base URL, in particular for a
URL whose netloc differs from every configured netloc, and an ok result always
names the repoid of some matching configured base URL (nothing is dropped and
no default is returned). -/
theorem map_url_no_match_error (u : URLSplit) (m : List (URLSplit × RepoID)) :
    ((∀ p ∈ m, matchesBase u p.1 = false) →
      map_url_to_repoid u m = .error "no matching baseurl") ∧
    ((∀ p ∈ m, u.netloc ≠ p.1.netloc) →
      map_url_to_repoid u m = .error "no matching baseurl") ∧
    (∀ r : RepoID, map_url_to_repoid u m = .ok r →
      ∃ p ∈ m, matchesBase u p.1 = true ∧ p.2 = r) := by
  refine ⟨fun h => ?_, fun h => ?_, ?_⟩
  · have := map_url_skip u m [] h
    rwa [List.append_nil] at this
  · have := map_url_skip u m []
      (fun p hp => matchesBase_false_of_netloc u p.1 (h p hp))
    rwa [List.append_nil] at this
  · intro r
    induction m with
    | nil => intro h; cases h
    | cons p rest ih =>
      cases p with
      | mk b rid =>
        simp only [map_url_to_repoid]
        by_cases hb : matchesBase u b = true
        · rw [if_pos hb]
          intro h
          cases h
          exact ⟨(b, r), List.mem_cons_self _ _, hb, rfl⟩
        · rw [if_neg hb]
          intro h
          obtain ⟨q, hq, hqm, hqr⟩ := ih h
          exact ⟨q, List.mem_cons_of_mem _ hq, hqm, hqr⟩

/-- Concrete witness for map_url_no_match_error: a URL on a host no base URL
uses is rejected with the error, and a URL under a configured base URL is
attributed to a matching entry. -/
theorem map_url_no_match_error_witness :
    map_url_to_repoid (urlsplit "https://other.net/repo/a.rpm")
      [(urlsplit "https://example.com/repo", "baseos")] = .error "no matching baseurl" ∧
    ∃ p ∈ [(urlsplit "https://example.com/repo", "baseos")],
      matchesBase (urlsplit "https://example.com/repo/a.rpm") p.1 = true ∧ p.2 = "baseos" := by
  constructor
  · exact (map_url_no_match_error (urlsplit "https://other.net/repo/a.rpm")
      [(urlsplit "https://example.com/repo", "baseos")]).2.1 (by decide)
  · exact (map_url_no_match_error (urlsplit "https://example.com/repo/a.rpm")
      [(urlsplit "https://example.com/repo", "baseos")]).2.2 "baseos" rfl

/-- Attribution goes to the first matching entry of the scan order. -/
theorem map_url_first_hit (u b : URLSplit) (rid : RepoID)
    (m₁ m₂ : List (URLSplit × RepoID))
    (hfirst : ∀ p ∈ m₁, matchesBase u p.1 = false)
    (hb : matchesBase u b = true) :
    map_url_to_repoid u (m₁ ++ (b, rid) :: m₂) = .ok rid := by
  rw [map_url_skip u m₁ ((b, rid) :: m₂) hfirst]
  simp only [map_url_to_repoid, if_pos hb]

/-- C1 (amended): a URL matches a base URL iff scheme and netloc are equal and
the base path's parts (root and segments, at segment boundaries) are a prefix
of the URL path's parts; and a URL matching a base URL expanded for a
repository is attributed to that repository's identifier provided no entry
earlier in the mapping's iteration order also matches. -/
theorem matchesBase_characterization (u b : URLSplit) (rid : RepoID)
    (m₁ m₂ : List (URLSplit × RepoID))
    (hfirst : ∀ p ∈ m₁, matchesBase u p.1 = false) :
    (matchesBase u b = true ↔
      (u.scheme = b.scheme ∧ u.netloc = b.netloc ∧
        (parsePosixPath u.path).root = (parsePosixPath b.path).root ∧
        (parsePosixPath b.path).segs <+: (parsePosixPath u.path).segs)) ∧
    (matchesBase u b = true →
      map_url_to_repoid u (m₁ ++ (b, rid) :: m₂) = .ok rid) := by
  constructor
  · simp [matchesBase, PosixPath.isRelativeTo, Bool.and_eq_true, beq_iff_eq,
      List.isPrefixOf_iff_prefix, and_assoc]
  · exact map_url_first_hit u b rid m₁ m₂ hfirst

/-- Concrete witness for matchesBase_characterization: with a single-entry
mapping, a URL nested under the expanded base URL is attributed to its
repository. -/
theorem matchesBase_characterization_witness :
    matchesBase (urlsplit "https://example.com/repo/x86_64/bash-5.1.rpm")
      (urlsplit "https://example.com/repo/x86_64/") = true ∧
    map_url_to_repoid (urlsplit "https://example.com/repo/x86_64/bash-5.1.rpm")
      ([] ++ (urlsplit "https://example.com/repo/x86_64/", "baseos") :: []) = .ok "baseos" := by
  have h := matchesBase_characterization
    (urlsplit "https://example.com/repo/x86_64/bash-5.1.rpm")
    (urlsplit "https://example.com/repo/x86_64/") "baseos" [] []
    (by intro p hp; cases hp)
  refine ⟨?_, ?_⟩
  · exact h.1.mpr (by refine ⟨rfl, rfl, rfl, ?_⟩; decide)
  · exact h.2 (h.1.mpr (by refine ⟨rfl, rfl, rfl, ?_⟩; decide))

/-- C1 counterexample: the URL is nested under the second base URL (same
scheme and host), yet it is attributed to the repository of the first,
shorter, base URL because the scan returns the first match. -/
theorem map_url_roundtrip_counterexample :
    matchesBase (urlsplit "https://example.com/repo/extra/pkg-1.rpm")
      (urlsplit "https://example.com/repo/extra") = true ∧
    map_url_to_repoid (urlsplit "https://example.com/repo/extra/pkg-1.rpm")
      [(urlsplit "https://example.com/repo", "baseos"),
       (urlsplit "https://example.com/repo/extra", "extras")] = .ok "baseos" := by
  exact ⟨by decide, rfl⟩

/-- C2 (amended): for every URL, map_url_to_repoid returns a repository
identifier exactly when some base URL in the mapping matches, and the
identifier returned is the one of the first matching base URL in the
mapping's iteration (insertion) order, regardless of prefix lengths. -/
theorem map_url_first_match_wins (u : URLSplit) (m : List (URLSplit × RepoID)) (r : RepoID) :
    map_url_to_repoid u m = .ok r ↔
      ∃ m₁ b m₂, m = m₁ ++ (b, r) :: m₂ ∧ matchesBase u b = true ∧
        ∀ p ∈ m₁, matchesBase u p.1 = false := by
  constructor
  · intro h
    induction m with
    | nil => cases h
    | cons p rest ih =>
      cases p with
      | mk b0 r0 =>
        by_cases hb : matchesBase u b0 = true
        · simp only [map_url_to_repoid, if_pos hb] at h
          cases h
          exact ⟨[], b0, rest, rfl, hb, by intro p hp; cases hp⟩
        · simp only [map_url_to_repoid, if_neg hb] at h
          obtain ⟨m₁, b, m₂, hm, hmatch, hnone⟩ := ih h
          refine ⟨(b0, r0) :: m₁, b, m₂, by rw [hm]; rfl, hmatch, ?_⟩
          intro p hp
          rcases List.mem_cons.mp hp with hp | hp
          · rw [hp]
            exact Bool.not_eq_true _ ▸ Bool.of_not_eq_true hb
          · exact hnone p hp
  · rintro ⟨m₁, b, m₂, rfl, hmatch, hnone⟩
    exact map_url_first_hit u b r m₁ m₂ hnone hmatch

/-- C2 counterexample: the URL matches both configured base URLs; the second
has the longer matching path prefix, but the result is the repository of the
first-registered entry. -/
theorem map_url_longest_counterexample :
    matchesBase (urlsplit "https://mirror.net/os/sub/pkg-2.rpm")
      (urlsplit "https://mirror.net/os") = true ∧
    matchesBase (urlsplit "https://mirror.net/os/sub/pkg-2.rpm")
      (urlsplit "https://mirror.net/os/sub") = true ∧
    (parsePosixPath (urlsplit "https://mirror.net/os").path).segs.length <
      (parsePosixPath (urlsplit "https://mirror.net/os/sub").path).segs.length ∧
    map_url_to_repoid (urlsplit "https://mirror.net/os/sub/pkg-2.rpm")
      [(urlsplit "https://mirror.net/os", "os-repo"),
       (urlsplit "https://mirror.net/os/sub", "sub-repo")] = .ok "os-repo" := by
  exact ⟨by decide, by decide, by decide, rfl⟩

/-- A path that starts with a slash parses with a non-zero root marker. -/
theorem posixRoot_ne_zero_of_slash (cs : List Char) :
    posixRoot ('/' :: cs) ≠ 0 := by
  match cs with
  | '/' :: '/' :: _ => simp [posixRoot]
  | '/' :: [] => simp [posixRoot]
  | '/' :: c :: rest =>
    by_cases hc : c = '/'
    · subst hc; simp [posixRoot]
    · simp [posixRoot, hc]
  | [] => simp [posixRoot]
  | c :: rest =>
    by_cases hc : c = '/'
    · subst hc
      match rest with
      | [] => simp [posixRoot]
      | d :: rest2 =>
        by_cases hd : d = '/'
        · subst hd; simp [posixRoot]
        · simp [posixRoot, hd]
    · simp [posixRoot, hc]

/-- C10 (confirmed): the empty path of a host-only base URL parses as a
relative path, so such a base URL never matches a URL whose path is a
non-empty absolute path, even with equal scheme and host; when every
configured base URL has an empty path, every such URL is rejected with the
no-matching-baseurl error. -/
theorem hostonly_baseurl_unmatched (u b : URLSplit) (m : List (URLSplit × RepoID))
    (habs : u.path.data.head? = some '/') :
    (parsePosixPath "").root = 0 ∧
    (b.path = "" → matchesBase u b = false) ∧
    ((∀ p ∈ m, p.1.path = "") →
      map_url_to_repoid u m = .error "no matching baseurl") := by
  have hroot : (parsePosixPath u.path).root ≠ 0 := by
    simp only [parsePosixPath]
    match hu : u.path.data with
    | [] => rw [hu] at habs; cases habs
    | c :: cs =>
      rw [hu] at habs
      simp only [List.head?] at habs
      cases habs
      exact posixRoot_ne_zero_of_slash cs
  have hmb : ∀ q : URLSplit, q.path = "" → matchesBase u q = false := by
    intro q hq
    simp only [matchesBase, PosixPath.isRelativeTo, hq]
    have : ((parsePosixPath u.path).root == (parsePosixPath "").root) = false := by
      simp only [parsePosixPath]
      simp only [beq_eq_false_iff_ne, ne_eq]
      intro hc
      exact hroot (by simp only [parsePosixPath]; rw [hc]; rfl)
    rw [this]
    simp
  refine ⟨rfl, hmb b, fun hall => ?_⟩
  have := map_url_skip u m [] (fun p hp => hmb p.1 (hall p hp))
  rwa [List.append_nil] at this

/-- Concrete witness for hostonly_baseurl_unmatched: the base URL
https-colon-slash-slash-host has empty path and rejects a package URL on the
same host. -/
theorem hostonly_baseurl_unmatched_witness :
    matchesBase (urlsplit "https://host/pkg/a-1.rpm") (urlsplit "https://host") = false ∧
    map_url_to_repoid (urlsplit "https://host/pkg/a-1.rpm")
      [(urlsplit "https://host", "baseos")] = .error "no matching baseurl" := by
  have h := hostonly_baseurl_unmatched (urlsplit "https://host/pkg/a-1.rpm")
    (urlsplit "https://host") [(urlsplit "https://host", "baseos")] (by decide)
  exact ⟨h.2.1 (by decide), h.2.2 (by decide)⟩

/-! Theorems about gen_lockfile (claims C3, C4, C7). -/

/-- The boolean comparison agrees with the lexicographic order on character
lists. -/
theorem strLTb_iff_lex : ∀ (l₁ l₂ : List Char), strLTb l₁ l₂ = true ↔ List.Lex (· < ·) l₁ l₂
  | [], [] => by
    constructor
    · intro h
      cases h
    · intro h
      exact absurd h (List.Lex.not_nil_right _ _)
  | [], d :: ds => by
    constructor
    · intro _
      exact List.Lex.nil
    · intro _
      rfl
  | c :: cs, [] => by
    constructor
    · intro h
      cases h
    · intro h
      exact absurd h (List.Lex.not_nil_right _ _)
  | c :: cs, d :: ds => by
    rcases lt_trichotomy c d with h | h | h
    · simp only [strLTb, if_pos h]
      constructor
      · intro _
        exact List.Lex.rel h
      · intro _
        trivial
    · subst h
      simp only [strLTb, if_neg (lt_irrefl c)]
      rw [strLTb_iff_lex cs ds]
      exact List.Lex.cons_iff.symm
    · simp only [strLTb, if_neg (asymm h), if_pos h]
      constructor
      · intro hc
        cases hc
      · intro hlex
        cases hlex with
        | cons h2 => exact absurd h (lt_irrefl _)
        | rel h2 => exact absurd h2 (asymm h)

/-- The boolean comparison agrees with the string order. -/
theorem strLTb_iff_lt (a b : String) : strLTb a.data b.data = true ↔ a < b := by
  rw [String.lt_iff_toList_lt]
  exact strLTb_iff_lex a.data b.data

/-- The tuple comparison coincides with the lexicographic order on
(arch, repoid, url). -/
theorem rpmLE_iff (a b : ResolvedRPM) : rpmLE a b = true ↔
    toLex (a.arch, toLex (a.repoid, a.url)) ≤ toLex (b.arch, toLex (b.repoid, b.url)) := by
  simp only [rpmLE, Bool.or_eq_true, Bool.and_eq_true, beq_iff_eq, strLTb_iff_lt,
    Prod.Lex.le_iff]
  constructor
  · rintro (h | ⟨h1, h2 | ⟨h3, h4 | h4⟩⟩)
    · exact Or.inl h
    · exact Or.inr ⟨h1, Or.inl h2⟩
    · exact Or.inr ⟨h1, Or.inr ⟨h3, le_of_lt h4⟩⟩
    · exact Or.inr ⟨h1, Or.inr ⟨h3, le_of_eq h4⟩⟩
  · rintro (h | ⟨h1, h2 | ⟨h3, h4⟩⟩)
    · exact Or.inl h
    · exact Or.inr ⟨h1, Or.inl h2⟩
    · rcases lt_or_eq_of_le h4 with h5 | h5
      · exact Or.inr ⟨h1, Or.inr ⟨h3, Or.inl h5⟩⟩
      · exact Or.inr ⟨h1, Or.inr ⟨h3, Or.inr h5⟩⟩

instance : IsTotal ResolvedRPM rpmle :=
  ⟨fun a b => by
    simp only [rpmle, rpmLE_iff]
    exact le_total _ _⟩

instance : IsTrans ResolvedRPM rpmle :=
  ⟨fun a b c hab hbc => by
    simp only [rpmle, rpmLE_iff] at *
    exact le_trans hab hbc⟩

instance : IsAntisymm ResolvedRPM rpmle :=
  ⟨fun a b hab hba => by
    simp only [rpmle, rpmLE_iff] at hab hba
    have h := toLex_inj.mp (le_antisymm hab hba)
    have h1 := congrArg Prod.fst h
    have h2 := toLex_inj.mp (congrArg Prod.snd h)
    have h3 := congrArg Prod.fst h2
    have h4 := congrArg Prod.snd h2
    cases a
    cases b
    simp only at h1 h3 h4
    exact congrArg₂ (fun x p => ResolvedRPM.mk x p.1 p.2) h1 (Prod.ext h3 h4)⟩

/-- C3 (confirmed): gen_lockfile is deterministic and order-insensitive: two
presentations of the same multiset of (arch, repoid, url) triples produce the
same lockfile document. -/
theorem gen_lockfile_deterministic (l₁ l₂ : List ResolvedRPM) (h : l₁.Perm l₂) :
    gen_lockfile l₁ = gen_lockfile l₂ := by
  have hsorted : List.insertionSort rpmle l₁ = List.insertionSort rpmle l₂ :=
    List.eq_of_perm_of_sorted
      ((List.perm_insertionSort rpmle l₁).trans
        (h.trans (List.perm_insertionSort rpmle l₂).symm))
      (List.sorted_insertionSort rpmle l₁)
      (List.sorted_insertionSort rpmle l₂)
  unfold gen_lockfile
  rw [hsorted]

/-- Concrete witness for gen_lockfile_deterministic: swapping two input
triples leaves the document unchanged. -/
theorem gen_lockfile_deterministic_witness :
    gen_lockfile
      [⟨"x86_64", "baseos", "https://example.com/repo/b-1.rpm"⟩,
       ⟨"aarch64", "extras", "https://example.com/extra/a-1.rpm"⟩] =
    gen_lockfile
      [⟨"aarch64", "extras", "https://example.com/extra/a-1.rpm"⟩,
       ⟨"x86_64", "baseos", "https://example.com/repo/b-1.rpm"⟩] := by
  exact gen_lockfile_deterministic _ _ (List.Perm.swap _ _ [])

/-- The lockfile item derived from one triple. -/
def itemOf (r : ResolvedRPM) : LockItem := ⟨r.url, r.repoid⟩

/-- The packages list an architecture receives from a run of rpms: the items
of the non-source triples with that arch, in order. -/
def pkgsOf (l : List ResolvedRPM) (a : String) : List LockItem :=
  (l.filter (fun r => r.arch == a && !r.isSource)).map itemOf

/-- The source list an architecture receives from a run of rpms: the items of
the source triples with that arch, in order. -/
def srcsOf (l : List ResolvedRPM) (a : String) : List LockItem :=
  (l.filter (fun r => r.arch == a && r.isSource)).map itemOf

/-- Looking up the updated key yields the updated value (over the defaultdict
default when the key was absent). -/
theorem updateArch_lookup_self (m : List (String × ArchData)) (a : String)
    (f : ArchData → ArchData) :
    alistGet? (updateArch m a f) a = some (f ((alistGet? m a).getD emptyArchData)) := by
  induction m with
  | nil => simp [updateArch, alistGet?]
  | cons p rest ih =>
    cases p with
    | mk k v =>
      by_cases hk : k = a
      · subst hk
        simp [updateArch, alistGet?]
      · simp [updateArch, alistGet?, hk, ih]

/-- Looking up another key is unaffected by the update. -/
theorem updateArch_lookup_other (m : List (String × ArchData)) (a a2 : String)
    (f : ArchData → ArchData) (h : a2 ≠ a) :
    alistGet? (updateArch m a f) a2 = alistGet? m a2 := by
  induction m with
  | nil =>
    simp only [updateArch, alistGet?]
    rw [if_neg (fun hc => h hc.symm)]
  | cons p rest ih =>
    cases p with
    | mk k v =>
      by_cases hk : k = a
      · subst hk
        simp only [updateArch, if_pos rfl, alistGet?]
        rw [if_neg (fun hc => h hc.symm), if_neg (fun hc => h hc.symm)]
      · simp only [updateArch, if_neg hk, alistGet?]
        rw [ih]

/-- Adding a source rpm appends its item to the source list of its arch. -/
theorem addRPM_lookup_self_src (m : List (String × ArchData)) (r : ResolvedRPM)
    (hs : r.isSource = true) :
    alistGet? (addRPM m r) r.arch = some
      ⟨((alistGet? m r.arch).getD emptyArchData).packages,
       ((alistGet? m r.arch).getD emptyArchData).source ++ [itemOf r]⟩ := by
  simp [addRPM, hs, updateArch_lookup_self, itemOf]

/-- Adding a non-source rpm appends its item to the packages list of its
arch. -/
theorem addRPM_lookup_self_pkg (m : List (String × ArchData)) (r : ResolvedRPM)
    (hs : r.isSource = false) :
    alistGet? (addRPM m r) r.arch = some
      ⟨((alistGet? m r.arch).getD emptyArchData).packages ++ [itemOf r],
       ((alistGet? m r.arch).getD emptyArchData).source⟩ := by
  simp [addRPM, hs, updateArch_lookup_self, itemOf]

/-- Adding an rpm leaves the entries of other architectures unchanged. -/
theorem addRPM_lookup_other (m : List (String × ArchData)) (r : ResolvedRPM)
    (a : String) (h : a ≠ r.arch) :
    alistGet? (addRPM m r) a = alistGet? m a := by
  by_cases hs : r.isSource <;>
    simp [addRPM, hs, updateArch_lookup_other _ _ _ _ h]

/-- Folding a run of rpms over a dict that already has an entry for an
architecture extends that entry by the per-architecture partitions of the
run. -/
theorem foldl_addRPM_lookup_some (l : List ResolvedRPM) (m : List (String × ArchData))
    (a : String) (d : ArchData) (hd : alistGet? m a = some d) :
    alistGet? (l.foldl addRPM m) a =
      some ⟨d.packages ++ pkgsOf l a, d.source ++ srcsOf l a⟩ := by
  induction l generalizing m d with
  | nil =>
    simp only [List.foldl_nil, hd, pkgsOf, srcsOf, List.filter_nil, List.map_nil,
      List.append_nil]
  | cons r rest ih =>
    simp only [List.foldl_cons]
    by_cases ha : r.arch = a
    · subst ha
      by_cases hs : r.isSource
      · have h1 := addRPM_lookup_self_src m r hs
        simp only [hd, Option.getD_some] at h1
        rw [ih _ _ h1]
        simp [pkgsOf, srcsOf, List.filter_cons, hs, List.append_assoc]
      · have hs2 : r.isSource = false := by
          exact Bool.not_eq_true _ ▸ Bool.of_not_eq_true hs
        have h1 := addRPM_lookup_self_pkg m r hs2
        simp only [hd, Option.getD_some] at h1
        rw [ih _ _ h1]
        simp [pkgsOf, srcsOf, List.filter_cons, hs2, List.append_assoc]
    · have h1 : alistGet? (addRPM m r) a = some d := by
        rw [addRPM_lookup_other m r a (fun hc => ha hc.symm)]
        exact hd
      rw [ih _ _ h1]
      have hfa : (r.arch == a) = false := by
        simp only [beq_eq_false_iff_ne, ne_eq]
        exact ha
      simp [pkgsOf, srcsOf, List.filter_cons, hfa]

/-- Folding a run of rpms over a dict without an entry for an architecture
creates exactly the per-architecture partitions of the run, and creates no
entry when the run never mentions the architecture. -/
theorem foldl_addRPM_lookup_none (l : List ResolvedRPM) (m : List (String × ArchData))
    (a : String) (hd : alistGet? m a = none) :
    alistGet? (l.foldl addRPM m) a =
      if l.any (fun r => r.arch == a) then some ⟨pkgsOf l a, srcsOf l a⟩ else none := by
  induction l generalizing m with
  | nil =>
    simp only [List.foldl_nil, List.any_nil, if_neg (by simp : ¬False)]
    exact hd
  | cons r rest ih =>
    simp only [List.foldl_cons]
    by_cases ha : r.arch = a
    · subst ha
      by_cases hs : r.isSource
      · have h1 := addRPM_lookup_self_src m r hs
        simp only [hd, Option.getD_none, emptyArchData] at h1
        rw [foldl_addRPM_lookup_some rest _ _ _ h1]
        simp [pkgsOf, srcsOf, List.filter_cons, hs, List.any_cons]
      · have hs2 : r.isSource = false := by
          exact Bool.not_eq_true _ ▸ Bool.of_not_eq_true hs
        have h1 := addRPM_lookup_self_pkg m r hs2
        simp only [hd, Option.getD_none, emptyArchData] at h1
        rw [foldl_addRPM_lookup_some rest _ _ _ h1]
        simp [pkgsOf, srcsOf, List.filter_cons, hs2, List.any_cons]
    · have h1 : alistGet? (addRPM m r) a = none := by
        rw [addRPM_lookup_other m r a (fun hc => ha hc.symm)]
        exact hd
      rw [ih _ h1]
      have hfa : (r.arch == a) = false := by
        simp only [beq_eq_false_iff_ne, ne_eq]
        exact ha
      simp [pkgsOf, srcsOf, List.filter_cons, hfa, List.any_cons]

/-- A successful association-list lookup is a membership. -/
theorem mem_of_alistGet? {α β : Type} [DecidableEq α] {m : List (α × β)} {a : α} {b : β}
    (h : alistGet? m a = some b) : (a, b) ∈ m := by
  induction m with
  | nil => cases h
  | cons p rest ih =>
    cases p with
    | mk k v =>
      simp only [alistGet?] at h
      by_cases hk : k = a
      · rw [if_pos hk] at h
        cases h
        subst hk
        exact List.mem_cons_self _ _
      · rw [if_neg hk] at h
        exact List.mem_cons_of_mem _ (ih h)

/-- With duplicate-free keys, a membership determines the lookup result. -/
theorem alistGet?_of_mem {α β : Type} [DecidableEq α] {m : List (α × β)}
    (hnd : (m.map Prod.fst).Nodup) {a : α} {b : β} (hm : (a, b) ∈ m) :
    alistGet? m a = some b := by
  induction m with
  | nil => cases hm
  | cons p rest ih =>
    cases p with
    | mk k v =>
      simp only [List.map_cons, List.nodup_cons] at hnd
      rcases List.mem_cons.mp hm with h | h
      · cases h
        simp [alistGet?]
      · by_cases hk : k = a
        · exfalso
          subst hk
          exact hnd.1 (List.mem_map_of_mem Prod.fst h)
        · simp only [alistGet?, if_neg hk]
          exact ih hnd.2 h

/-- The keys after an update: unchanged when the key was present, the key
appended otherwise. -/
theorem updateArch_keys (m : List (String × ArchData)) (a : String)
    (f : ArchData → ArchData) :
    (updateArch m a f).map Prod.fst =
      if a ∈ m.map Prod.fst then m.map Prod.fst else m.map Prod.fst ++ [a] := by
  induction m with
  | nil => simp [updateArch]
  | cons p rest ih =>
    cases p with
    | mk k v =>
      by_cases hk : k = a
      · subst hk
        simp [updateArch]
      · simp only [updateArch, if_neg hk, List.map_cons, ih, List.mem_cons]
        by_cases hmem : a ∈ rest.map Prod.fst
        · rw [if_pos hmem, if_pos (Or.inr hmem)]
        · rw [if_neg hmem, if_neg ?_]
          · simp
          · rintro (hc | hc)
            · exact hk hc.symm
            · exact hmem hc

/-- Updates preserve duplicate-freeness of the keys. -/
theorem updateArch_keys_nodup (m : List (String × ArchData)) (a : String)
    (f : ArchData → ArchData) (h : (m.map Prod.fst).Nodup) :
    ((updateArch m a f).map Prod.fst).Nodup := by
  rw [updateArch_keys]
  by_cases hmem : a ∈ m.map Prod.fst
  · rwa [if_pos hmem]
  · rw [if_neg hmem]
    simp [List.nodup_append, h, hmem]

/-- Folding rpms into the per-architecture dict preserves duplicate-freeness
of the keys. -/
theorem foldl_addRPM_keys_nodup (l : List ResolvedRPM) (m : List (String × ArchData))
    (h : (m.map Prod.fst).Nodup) : ((l.foldl addRPM m).map Prod.fst).Nodup := by
  induction l generalizing m with
  | nil => exact h
  | cons r rest ih =>
    simp only [List.foldl_cons]
    refine ih _ ?_
    by_cases hs : r.isSource <;> simp [addRPM, hs, updateArch_keys_nodup _ _ _ h]

/-- C4 (confirmed): gen_lockfile places every input triple in its
architecture's source list exactly when the filename derived from the URL path
ends with .src.rpm and in the packages list otherwise, and every emitted item
stems from an input triple of that architecture with the matching filename
test. -/
theorem gen_lockfile_partition (rpms : List ResolvedRPM) :
    (∀ r ∈ rpms, ∃ d, alistGet? (gen_lockfile rpms).arches r.arch = some d ∧
      (strEndsWith r.filename ".src.rpm" = true → itemOf r ∈ d.source) ∧
      (strEndsWith r.filename ".src.rpm" = false → itemOf r ∈ d.packages)) ∧
    (∀ a d, (a, d) ∈ (gen_lockfile rpms).arches →
      (∀ it ∈ d.source, ∃ r ∈ rpms, itemOf r = it ∧ r.arch = a ∧
        strEndsWith r.filename ".src.rpm" = true) ∧
      (∀ it ∈ d.packages, ∃ r ∈ rpms, itemOf r = it ∧ r.arch = a ∧
        strEndsWith r.filename ".src.rpm" = false)) := by
  have hperm := List.perm_insertionSort rpmle rpms
  have harches : (gen_lockfile rpms).arches =
      (List.insertionSort rpmle rpms).foldl addRPM [] := rfl
  constructor
  · intro r hr
    have hrs : r ∈ List.insertionSort rpmle rpms := hperm.mem_iff.mpr hr
    have hany : (List.insertionSort rpmle rpms).any (fun x => x.arch == r.arch) = true :=
      List.any_eq_true.mpr ⟨r, hrs, by simp⟩
    refine ⟨⟨pkgsOf (List.insertionSort rpmle rpms) r.arch,
             srcsOf (List.insertionSort rpmle rpms) r.arch⟩, ?_, ?_, ?_⟩
    · rw [harches, foldl_addRPM_lookup_none _ [] _ rfl, if_pos hany]
    · intro hsrc
      refine List.mem_map_of_mem itemOf (List.mem_filter.mpr ⟨hrs, ?_⟩)
      simp [ResolvedRPM.isSource, hsrc]
    · intro hpkg
      refine List.mem_map_of_mem itemOf (List.mem_filter.mpr ⟨hrs, ?_⟩)
      simp [ResolvedRPM.isSource, hpkg]
  · intro a d hm
    rw [harches] at hm
    have hnd := foldl_addRPM_keys_nodup (List.insertionSort rpmle rpms) [] (by simp)
    have hga := alistGet?_of_mem hnd hm
    rw [foldl_addRPM_lookup_none _ [] _ rfl] at hga
    by_cases hany : (List.insertionSort rpmle rpms).any (fun r => r.arch == a) = true
    · rw [if_pos hany] at hga
      have hd : d = ⟨pkgsOf (List.insertionSort rpmle rpms) a,
                     srcsOf (List.insertionSort rpmle rpms) a⟩ := by
        cases hga
        rfl
      subst hd
      constructor
      · intro it hit
        obtain ⟨r, hrf, hitem⟩ := List.mem_map.mp hit
        obtain ⟨hrs, hpred⟩ := List.mem_filter.mp hrf
        simp only [Bool.and_eq_true] at hpred
        obtain ⟨harch, hsrc⟩ := hpred
        exact ⟨r, hperm.mem_iff.mp hrs, hitem, eq_of_beq harch, hsrc⟩
      · intro it hit
        obtain ⟨r, hrf, hitem⟩ := List.mem_map.mp hit
        obtain ⟨hrs, hpred⟩ := List.mem_filter.mp hrf
        simp only [Bool.and_eq_true, Bool.not_eq_true'] at hpred
        obtain ⟨harch, hsrc⟩ := hpred
        exact ⟨r, hperm.mem_iff.mp hrs, hitem, eq_of_beq harch, hsrc⟩
    · rw [if_neg hany] at hga
      cases hga

/-- Concrete witness for gen_lockfile_partition: with one binary and one
source rpm for x86_64, the source artifact lands in the source list and the
binary artifact in the packages list of the emitted entry. -/
theorem gen_lockfile_partition_witness :
    ((⟨"https://example.com/repo/bash-5.1.src.rpm", "baseos"⟩ : LockItem) ∈
      (ArchData.mk [⟨"https://example.com/repo/bash-5.1.x86_64.rpm", "baseos"⟩]
        [⟨"https://example.com/repo/bash-5.1.src.rpm", "baseos"⟩]).source) ∧
    ((⟨"https://example.com/repo/bash-5.1.x86_64.rpm", "baseos"⟩ : LockItem) ∈
      (ArchData.mk [⟨"https://example.com/repo/bash-5.1.x86_64.rpm", "baseos"⟩]
        [⟨"https://example.com/repo/bash-5.1.src.rpm", "baseos"⟩]).packages) := by
  obtain ⟨d1, hd1, hsrc1, hpkg1⟩ := (gen_lockfile_partition
      [⟨"x86_64", "baseos", "https://example.com/repo/bash-5.1.x86_64.rpm"⟩,
       ⟨"x86_64", "baseos", "https://example.com/repo/bash-5.1.src.rpm"⟩]).1
      ⟨"x86_64", "baseos", "https://example.com/repo/bash-5.1.src.rpm"⟩ (by decide)
  obtain ⟨d2, hd2, hsrc2, hpkg2⟩ := (gen_lockfile_partition
      [⟨"x86_64", "baseos", "https://example.com/repo/bash-5.1.x86_64.rpm"⟩,
       ⟨"x86_64", "baseos", "https://example.com/repo/bash-5.1.src.rpm"⟩]).1
      ⟨"x86_64", "baseos", "https://example.com/repo/bash-5.1.x86_64.rpm"⟩ (by decide)
  have hc : alistGet? (gen_lockfile
      [⟨"x86_64", "baseos", "https://example.com/repo/bash-5.1.x86_64.rpm"⟩,
       ⟨"x86_64", "baseos", "https://example.com/repo/bash-5.1.src.rpm"⟩]).arches "x86_64" =
      some (ArchData.mk [⟨"https://example.com/repo/bash-5.1.x86_64.rpm", "baseos"⟩]
        [⟨"https://example.com/repo/bash-5.1.src.rpm", "baseos"⟩]) := by decide
  have e1 := Option.some.inj (hd1.symm.trans hc)
  have e2 := Option.some.inj (hd2.symm.trans hc)
  exact ⟨e1 ▸ hsrc1 (by decide), e2 ▸ hpkg2 (by decide)⟩

/-- A lookup that yields an entry pins the entry to the per-architecture
partitions of the sorted input. -/
theorem gen_lockfile_lookup_eq (rpms : List ResolvedRPM) (a : String) (d : ArchData)
    (hd : alistGet? (gen_lockfile rpms).arches a = some d) :
    d = ⟨pkgsOf (List.insertionSort rpmle rpms) a,
         srcsOf (List.insertionSort rpmle rpms) a⟩ := by
  have harches : (gen_lockfile rpms).arches =
      (List.insertionSort rpmle rpms).foldl addRPM [] := rfl
  rw [harches, foldl_addRPM_lookup_none _ [] _ rfl] at hd
  by_cases hany : (List.insertionSort rpmle rpms).any (fun r => r.arch == a) = true
  · rw [if_pos hany] at hd
    exact (Option.some.inj hd).symm
  · rw [if_neg hany] at hd
    cases hd

/-- Each item occurs in the packages partition exactly as often as its triple
occurs in the run. -/
theorem count_pkgsOf (l : List ResolvedRPM) (r : ResolvedRPM) (hs : r.isSource = false) :
    (pkgsOf l r.arch).count (itemOf r) = l.count r := by
  induction l with
  | nil => rfl
  | cons x rest ih =>
    rw [List.count_cons]
    by_cases hxr : x = r
    · subst hxr
      have hpx : (x.arch == x.arch && !x.isSource) = true := by
        simp [hs]
      simp only [pkgsOf, List.filter_cons, if_pos hpx, List.map_cons, List.count_cons]
      simp only [pkgsOf] at ih
      rw [ih]
      simp
    · have hne : (x == r) = false := by
        simp only [beq_eq_false_iff_ne, ne_eq]
        exact hxr
      rw [hne]
      by_cases hpx : (x.arch == r.arch && !x.isSource) = true
      · simp only [pkgsOf, List.filter_cons, if_pos hpx, List.map_cons, List.count_cons]
        have hitem : (itemOf x == itemOf r) = false := by
          simp only [beq_eq_false_iff_ne, ne_eq]
          intro hco
          apply hxr
          simp only [Bool.and_eq_true] at hpx
          obtain ⟨harch, _⟩ := hpx
          have hurl := congrArg LockItem.url hco
          have hrep := congrArg LockItem.repoid hco
          simp only [itemOf] at hurl hrep
          cases x
          cases r
          simp only at hurl hrep harch ⊢
          simp [eq_of_beq harch, hurl, hrep]
        rw [hitem]
        simp only [pkgsOf] at ih
        rw [ih]
      · simp only [pkgsOf, List.filter_cons, if_neg hpx]
        simp only [pkgsOf] at ih
        rw [ih]
        simp

/-- Each item occurs in the source partition exactly as often as its triple
occurs in the run. -/
theorem count_srcsOf (l : List ResolvedRPM) (r : ResolvedRPM) (hs : r.isSource = true) :
    (srcsOf l r.arch).count (itemOf r) = l.count r := by
  induction l with
  | nil => rfl
  | cons x rest ih =>
    rw [List.count_cons]
    by_cases hxr : x = r
    · subst hxr
      have hpx : (x.arch == x.arch && x.isSource) = true := by
        simp [hs]
      simp only [srcsOf, List.filter_cons, if_pos hpx, List.map_cons, List.count_cons]
      simp only [srcsOf] at ih
      rw [ih]
      simp
    · have hne : (x == r) = false := by
        simp only [beq_eq_false_iff_ne, ne_eq]
        exact hxr
      rw [hne]
      by_cases hpx : (x.arch == r.arch && x.isSource) = true
      · simp only [srcsOf, List.filter_cons, if_pos hpx, List.map_cons, List.count_cons]
        have hitem : (itemOf x == itemOf r) = false := by
          simp only [beq_eq_false_iff_ne, ne_eq]
          intro hco
          apply hxr
          simp only [Bool.and_eq_true] at hpx
          obtain ⟨harch, _⟩ := hpx
          have hurl := congrArg LockItem.url hco
          have hrep := congrArg LockItem.repoid hco
          simp only [itemOf] at hurl hrep
          cases x
          cases r
          simp only at hurl hrep harch ⊢
          simp [eq_of_beq harch, hurl, hrep]
        rw [hitem]
        simp only [srcsOf] at ih
        rw [ih]
      · simp only [srcsOf, List.filter_cons, if_neg hpx]
        simp only [srcsOf] at ih
        rw [ih]
        simp

/-- C7 (amended): gen_lockfile preserves multiplicities instead of
deduplicating: every (arch, repoid, url) triple appears in its partition list
exactly as many times as it occurs in the input, so a duplicated input triple
yields a duplicated entry, and only duplicate-free inputs give at most one
occurrence per triple. -/
theorem gen_lockfile_multiplicity (rpms : List ResolvedRPM) (r : ResolvedRPM) (d : ArchData)
    (hd : alistGet? (gen_lockfile rpms).arches r.arch = some d) :
    (r.isSource = true → d.source.count (itemOf r) = rpms.count r) ∧
    (r.isSource = false → d.packages.count (itemOf r) = rpms.count r) := by
  have he := gen_lockfile_lookup_eq rpms r.arch d hd
  subst he
  constructor
  · intro hs
    rw [count_srcsOf _ _ hs]
    exact (List.perm_insertionSort rpmle rpms).count_eq r
  · intro hs
    rw [count_pkgsOf _ _ hs]
    exact (List.perm_insertionSort rpmle rpms).count_eq r

/-- Concrete witness for gen_lockfile_multiplicity: a duplicated triple is
counted twice in the packages list of the emitted entry. -/
theorem gen_lockfile_multiplicity_witness :
    (ArchData.mk [⟨"https://example.com/repo/a-1.rpm", "baseos"⟩,
                  ⟨"https://example.com/repo/a-1.rpm", "baseos"⟩] []).packages.count
        (⟨"https://example.com/repo/a-1.rpm", "baseos"⟩ : LockItem) =
      List.count (⟨"x86_64", "baseos", "https://example.com/repo/a-1.rpm"⟩ : ResolvedRPM)
        [⟨"x86_64", "baseos", "https://example.com/repo/a-1.rpm"⟩,
         ⟨"x86_64", "baseos", "https://example.com/repo/a-1.rpm"⟩] := by
  exact (gen_lockfile_multiplicity
      [⟨"x86_64", "baseos", "https://example.com/repo/a-1.rpm"⟩,
       ⟨"x86_64", "baseos", "https://example.com/repo/a-1.rpm"⟩]
      ⟨"x86_64", "baseos", "https://example.com/repo/a-1.rpm"⟩
      (ArchData.mk [⟨"https://example.com/repo/a-1.rpm", "baseos"⟩,
                    ⟨"https://example.com/repo/a-1.rpm", "baseos"⟩] [])
      (by decide)).2 (by decide)

/-- C7 counterexample: the same triple given twice appears twice in the
emitted document (no deduplication), and in particular its item is counted
twice in the packages list. -/
theorem gen_lockfile_dedup_counterexample :
    (gen_lockfile [⟨"x86_64", "baseos", "https://example.com/repo/a-1.rpm"⟩,
                   ⟨"x86_64", "baseos", "https://example.com/repo/a-1.rpm"⟩]).arches =
      [("x86_64", ⟨[⟨"https://example.com/repo/a-1.rpm", "baseos"⟩,
                    ⟨"https://example.com/repo/a-1.rpm", "baseos"⟩], []⟩)] ∧
    ([(⟨"https://example.com/repo/a-1.rpm", "baseos"⟩ : LockItem),
      ⟨"https://example.com/repo/a-1.rpm", "baseos"⟩].count
        (⟨"https://example.com/repo/a-1.rpm", "baseos"⟩ : LockItem)) = 2 := by
  exact ⟨by decide, by decide⟩

/-! Theorems about the enrichment step (claim C5). -/

/-- Repeating the size step changes nothing further. -/
theorem enrichSize_idem (fs : ArtifactStore) (arch : String) (rpm : RpmEntry) :
    enrichSize fs arch (enrichSize fs arch rpm) = enrichSize fs arch rpm := by
  by_cases h : truthySize rpm.size = true
  · unfold enrichSize
    rw [if_pos h, if_pos h]
  · unfold enrichSize
    rw [if_neg h]
    by_cases h2 : truthySize (some (fs.sizeOf arch rpm.repoid (entryFilename rpm))) = true
    · rw [if_pos h2]
    · rw [if_neg h2]
      rfl

/-- Repeating the checksum step changes nothing further. -/
theorem enrichChecksum_idem (fs : ArtifactStore) (arch : String) (rpm : RpmEntry) :
    enrichChecksum fs arch (enrichChecksum fs arch rpm) = enrichChecksum fs arch rpm := by
  by_cases h : truthyChecksum rpm.checksum = true
  · unfold enrichChecksum
    rw [if_pos h, if_pos h]
  · unfold enrichChecksum
    rw [if_neg h]
    by_cases h2 : truthyChecksum
        (some (fs.sha256Of arch rpm.repoid (entryFilename rpm))) = true
    · rw [if_pos h2]
    · rw [if_neg h2]
      rfl

/-- The size and checksum steps touch disjoint fields and commute. -/
theorem enrichSize_enrichChecksum_comm (fs : ArtifactStore) (arch : String) (rpm : RpmEntry) :
    enrichSize fs arch (enrichChecksum fs arch rpm) =
      enrichChecksum fs arch (enrichSize fs arch rpm) := by
  cases rpm with
  | mk url repoid size checksum =>
    by_cases hs : truthySize size = true <;> by_cases hc : truthyChecksum checksum = true <;>
      simp [enrichSize, enrichChecksum, entryFilename, hs, hc]

/-- Enriching one entry is idempotent. -/
theorem enrichRpm_idem (fs : ArtifactStore) (arch : String) (rpm : RpmEntry) :
    enrichRpm fs arch (enrichRpm fs arch rpm) = enrichRpm fs arch rpm := by
  unfold enrichRpm
  rw [enrichSize_enrichChecksum_comm, enrichChecksum_idem, enrichSize_idem]

/-- An entry with truthy size and checksum is left unchanged. -/
theorem enrichRpm_noop (fs : ArtifactStore) (arch : String) (rpm : RpmEntry)
    (hts : truthySize rpm.size = true) (htc : truthyChecksum rpm.checksum = true) :
    enrichRpm fs arch rpm = rpm := by
  unfold enrichRpm enrichChecksum enrichSize
  rw [if_pos hts, if_pos htc]

/-- C5 (amended): for a fixed artifact store the enrichment pass is
idempotent; a document whose every entry has a truthy size (present and
non-zero) and a truthy checksum (present and non-empty) is left unchanged;
and truthy size or checksum values are never overwritten. A present but falsy
value (size 0, empty checksum) is recomputed from the store, which the
counterexample shows can change the document. -/
theorem enhance_idempotent_and_preserving (fs : ArtifactStore) (doc : EnrichDoc) :
    (enhance_with_size_and_checksum fs (enhance_with_size_and_checksum fs doc) =
      enhance_with_size_and_checksum fs doc) ∧
    ((∀ ae ∈ doc.arches, ∀ e ∈ ae.packages ++ ae.source,
        truthySize e.size = true ∧ truthyChecksum e.checksum = true) →
      enhance_with_size_and_checksum fs doc = doc) ∧
    (∀ arch rpm, (truthySize rpm.size = true → (enrichRpm fs arch rpm).size = rpm.size) ∧
      (truthyChecksum rpm.checksum = true →
        (enrichRpm fs arch rpm).checksum = rpm.checksum)) := by
  refine ⟨?_, ?_, ?_⟩
  · unfold enhance_with_size_and_checksum
    simp only [EnrichDoc.mk.injEq, List.map_map]
    refine List.map_congr_left ?_
    intro ae _
    unfold enrichArchEntry
    simp only [Function.comp_apply, List.map_map, EnrichArch.mk.injEq]
    refine ⟨trivial, List.map_congr_left ?_, List.map_congr_left ?_⟩ <;>
      exact fun e _ => enrichRpm_idem fs ae.arch e
  · intro hall
    unfold enhance_with_size_and_checksum
    have hmap : doc.arches.map (enrichArchEntry fs) = doc.arches := by
      have := List.map_congr_left (l := doc.arches)
        (f := enrichArchEntry fs) (g := id) ?_
      · simpa using this
      · intro ae hae
        unfold enrichArchEntry
        have hpk : ae.packages.map (enrichRpm fs ae.arch) = ae.packages := by
          have := List.map_congr_left (l := ae.packages)
            (f := enrichRpm fs ae.arch) (g := id) ?_
          · simpa using this
          · intro e he
            have h := hall ae hae e (List.mem_append.mpr (Or.inl he))
            simpa using enrichRpm_noop fs ae.arch e h.1 h.2
        have hsc : ae.source.map (enrichRpm fs ae.arch) = ae.source := by
          have := List.map_congr_left (l := ae.source)
            (f := enrichRpm fs ae.arch) (g := id) ?_
          · simpa using this
          · intro e he
            have h := hall ae hae e (List.mem_append.mpr (Or.inr he))
            simpa using enrichRpm_noop fs ae.arch e h.1 h.2
        cases ae
        simp only [EnrichArch.mk.injEq, id_eq]
        exact ⟨trivial, hpk, hsc⟩
    rw [hmap]
  · intro arch rpm
    constructor
    · intro hts
      unfold enrichRpm enrichChecksum enrichSize
      rw [if_pos hts]
      by_cases htc : truthyChecksum rpm.checksum = true
      · rw [if_pos htc]
      · rw [if_neg htc]
    · intro htc
      unfold enrichRpm enrichSize
      by_cases hts : truthySize rpm.size = true
      · rw [if_pos hts]
        unfold enrichChecksum
        rw [if_pos htc]
      · rw [if_neg hts]
        unfold enrichChecksum
        simp only [if_pos htc]

/-- Concrete witness for enhance_idempotent_and_preserving: a fully truthy
one-entry document is a fixed point of enrichment, and re-running enrichment
on any already-enriched document changes nothing. -/
theorem enhance_idempotent_witness :
    enhance_with_size_and_checksum ⟨fun _ _ _ => 7, fun _ _ _ => "sha256:aa"⟩
        ⟨[⟨"x86_64", [⟨"https://example.com/repo/a-1.rpm", "baseos",
            some 12, some "sha256:bb"⟩], []⟩]⟩ =
      ⟨[⟨"x86_64", [⟨"https://example.com/repo/a-1.rpm", "baseos",
          some 12, some "sha256:bb"⟩], []⟩]⟩ := by
  exact (enhance_idempotent_and_preserving ⟨fun _ _ _ => 7, fun _ _ _ => "sha256:aa"⟩
    ⟨[⟨"x86_64", [⟨"https://example.com/repo/a-1.rpm", "baseos",
        some 12, some "sha256:bb"⟩], []⟩]⟩).2.1 (by decide)

/-- C5 counterexample: an entry whose size is present but zero (and whose
checksum is present) is not left unchanged: the falsy size is recomputed from
the artifact store, so a present field is overwritten. -/
theorem enhance_overwrite_counterexample :
    enhance_with_size_and_checksum ⟨fun _ _ _ => 7, fun _ _ _ => "sha256:aa"⟩
        ⟨[⟨"x86_64", [⟨"https://example.com/repo/a-1.rpm", "baseos",
            some 0, some "sha256:bb"⟩], []⟩]⟩ =
      ⟨[⟨"x86_64", [⟨"https://example.com/repo/a-1.rpm", "baseos",
          some 7, some "sha256:bb"⟩], []⟩]⟩ ∧
    (⟨[⟨"x86_64", [⟨"https://example.com/repo/a-1.rpm", "baseos",
        some 0, some "sha256:bb"⟩], []⟩]⟩ : EnrichDoc) ≠
      ⟨[⟨"x86_64", [⟨"https://example.com/repo/a-1.rpm", "baseos",
          some 7, some "sha256:bb"⟩], []⟩]⟩ := by
  exact ⟨rfl, by decide⟩

/-! Theorems about resolve_urls failure semantics (claim C6). -/

/-- C6 (amended): when the dnf invocation exits non-zero, the binary-package
call (source = false) propagates CalledProcessError, while the source call
(source = true) raises nothing, prints the SRPM warning, and returns the
URL-parseable lines of whatever stdout the failed tool produced, which is the
empty list whenever that stdout is empty. -/
theorem resolve_urls_failure (repoid : String) (proc : ProcResult)
    (h : proc.returncode ≠ 0) :
    ((resolve_urls_outcome false repoid proc).result = .error "CalledProcessError") ∧
    ((resolve_urls_outcome true repoid proc).result =
      .ok ((splitlines proc.stdout).filter (fun u => !((urlsplit u).scheme == "")))) ∧
    (StderrMsg.srpmWarning repoid ∈ (resolve_urls_outcome true repoid proc).stderr) ∧
    (proc.stdout = "" → (resolve_urls_outcome true repoid proc).result = .ok []) := by
  refine ⟨?_, ?_, ?_, ?_⟩
  · unfold resolve_urls_outcome
    rw [if_pos ⟨h, rfl⟩]
  · unfold resolve_urls_outcome
    rw [if_neg (fun hc => Bool.true_eq_false ▸ hc.2)]
  · unfold resolve_urls_outcome
    rw [if_neg (fun hc => Bool.true_eq_false ▸ hc.2)]
    simp only [if_pos h, if_pos rfl]
    exact List.mem_cons_self _ _
  · intro hempty
    unfold resolve_urls_outcome
    rw [if_neg (fun hc => Bool.true_eq_false ▸ hc.2)]
    rw [hempty]
    rfl

/-- Concrete witness for resolve_urls_failure: a failed invocation with empty
stdout propagates the error in binary mode and warns with an empty result in
source mode. -/
theorem resolve_urls_failure_witness :
    ((resolve_urls_outcome false "extras" ⟨1, "", "No match"⟩).result =
      .error "CalledProcessError") ∧
    ((resolve_urls_outcome true "extras" ⟨1, "", "No match"⟩).result = .ok []) ∧
    (StderrMsg.srpmWarning "extras" ∈
      (resolve_urls_outcome true "extras" ⟨1, "", "No match"⟩).stderr) := by
  have h := resolve_urls_failure "extras" ⟨1, "", "No match"⟩ (by decide)
  exact ⟨h.1, h.2.2.2 rfl, h.2.2.1⟩

/-- C6 counterexample: a failed source invocation whose stdout still contains
a URL line does not continue with an empty result: the parsed URL is kept. -/
theorem resolve_urls_source_nonempty_counterexample :
    (resolve_urls_outcome true "extras"
        ⟨1, "https://example.com/repo/a-1.src.rpm", "No match"⟩).result =
      .ok ["https://example.com/repo/a-1.src.rpm"] ∧
    (Except.ok ["https://example.com/repo/a-1.src.rpm"] : Except String (List String)) ≠
      .ok ([] : List String) := by
  refine ⟨rfl, fun hc => ?_⟩
  have := congrArg (fun e => match e with
    | Except.ok l => l
    | Except.error _ => []) hc
  simp at this

/-! Theorems about configuration parsing and base URL expansion (claim C9). -/

/-- When some repository section lacks the baseurl attribute, the expansion
pass for one architecture fails with the KeyError. -/
theorem expandRepos_error (arch : String)
    (repos : List (RepoID × List (String × String))) (m : List (URLSplit × RepoID))
    (h : ∃ p ∈ repos, alistGet? p.2 "baseurl" = none) :
    expandRepos arch repos m = .error "KeyError: baseurl" := by
  induction repos generalizing m with
  | nil =>
    obtain ⟨p, hp, _⟩ := h
    cases hp
  | cons q rest ih =>
    cases q with
    | mk rid attrs =>
      obtain ⟨p, hp, hnone⟩ := h
      cases hv : alistGet? attrs "baseurl" with
      | none => simp [expandRepos, hv]
      | some t =>
        rcases List.mem_cons.mp hp with heq | hp2
        · subst heq
          cases hnone.symm.trans hv
        · simp only [expandRepos, hv]
          exact ih _ ⟨p, hp2, hnone⟩

/-- C9 (amended): parse_dir performs no validation and cannot fail; the
missing-baseurl failure (a KeyError) is raised by map_expanded_baseurls when
the base URLs are expanded for a non-empty architecture list, which the
command performs before any resolution work. -/
theorem missing_baseurl_expansion_error (rs : RepoSet) (arch : String)
    (arches : List String)
    (hbroken : ∃ p ∈ rs.mapping, alistGet? p.2 "baseurl" = none) :
    map_expanded_baseurls rs (arch :: arches) = .error "KeyError: baseurl" := by
  unfold map_expanded_baseurls expandArches
  rw [expandRepos_error arch rs.mapping [] hbroken]

/-- Concrete witness for missing_baseurl_expansion_error: a one-section
configuration without baseurl makes expansion fail. -/
theorem missing_baseurl_expansion_error_witness :
    map_expanded_baseurls (RepoSet.mk [("broken", [("name", "Broken Repo")])])
      ["x86_64"] = .error "KeyError: baseurl" := by
  exact missing_baseurl_expansion_error
    (RepoSet.mk [("broken", [("name", "Broken Repo")])]) "x86_64" []
    ⟨("broken", [("name", "Broken Repo")]), by decide, rfl⟩

/-- C9 counterexample: parse_dir accepts a section that lacks the baseurl
attribute and returns normally with that section in the mapping (it does not
fail); the failure only arises later in map_expanded_baseurls. -/
theorem parse_dir_no_validation_counterexample :
    (parse_dir [[("broken", [("name", "Broken Repo")])]]).mapping =
      [("broken", [("name", "Broken Repo")])] ∧
    map_expanded_baseurls (parse_dir [[("broken", [("name", "Broken Repo")])]])
      ["x86_64"] = .error "KeyError: baseurl" := by
  exact ⟨rfl, rfl⟩

/-- Concrete witness for map_url_first_match_wins: the iff applied at a
two-entry mapping whose first entry matches. -/
theorem map_url_first_match_wins_witness :
    map_url_to_repoid (urlsplit "https://mirror.net/os/sub/pkg-3.rpm")
      [(urlsplit "https://mirror.net/os", "os-repo"),
       (urlsplit "https://mirror.net/os/sub", "sub-repo")] = .ok "os-repo" := by
  exact (map_url_first_match_wins (urlsplit "https://mirror.net/os/sub/pkg-3.rpm")
      [(urlsplit "https://mirror.net/os", "os-repo"),
       (urlsplit "https://mirror.net/os/sub", "sub-repo")] "os-repo").mpr
    ⟨[], urlsplit "https://mirror.net/os", [(urlsplit "https://mirror.net/os/sub", "sub-repo")],
     rfl, by decide, by intro p hp; cases hp⟩
